import Mathlib

/-!
Verification of the extraction & proxy backend (backend/server.js, two source
variants: the ESM `src/index.js` and the CJS `src/unnamed/part_000`).

The development is a shallow embedding: strings are `List Char` at the core
(with `String` wrappers), JavaScript's `JSON.parse` is embedded as a fuel-based
recursive-descent parser returning `Option Json` (`none` models a thrown
`SyntaxError`), and each regular expression of the source is embedded as the
deterministic leftmost/greedy backtracking matcher that the JS regex engine
denotes on that concrete pattern.  The four HTTP handlers are embedded as pure
functions from the request shape and the external collaborators' outcomes
(document-extraction result, LLM gateway reply) to the response, together with
the observable side effects the claims mention (temp-file unlink count, which
decoder ran, whether the LLM gateway was called).
-/

/-! ## Character classes used by the source's regular expressions -/

/-- The JavaScript `\s` / `trim` whitespace set (WhiteSpace + LineTerminator). -/
def jsWsChar (c : Char) : Bool :=
  c = ' ' || c = '\t' || c = '\n' || c = '\r' || c = '\x0b' || c = '\x0c' ||
  c = '\u00A0' || c = '\u1680' || ('\u2000' ≤ c && c ≤ '\u200A') ||
  c = '\u2028' || c = '\u2029' || c = '\u202F' || c = '\u205F' ||
  c = '\u3000' || c = '\uFEFF'

/-- ASCII digit, the `\d` class of a non-unicode JS regex. -/
def isDigitChar (c : Char) : Bool := '0' ≤ c && c ≤ '9'

/-- ASCII letter, the `[A-Za-z]` class. -/
def isAsciiLetterChar (c : Char) : Bool :=
  ('A' ≤ c && c ≤ 'Z') || ('a' ≤ c && c ≤ 'z')

/-- Lowercase ASCII letter, the `[a-z]` class. -/
def isLowerAZ (c : Char) : Bool := 'a' ≤ c && c ≤ 'z'

/-- The email local-part class `[a-zA-Z0-9._%+-]`. -/
def isLocalChar (c : Char) : Bool :=
  isAsciiLetterChar c || isDigitChar c || c = '.' || c = '_' || c = '%' ||
  c = '+' || c = '-'

/-- The email domain class `[a-zA-Z0-9.-]`. -/
def isDomainChar (c : Char) : Bool :=
  isAsciiLetterChar c || isDigitChar c || c = '.' || c = '-'

/-- The phone separator class `[\s-]`. -/
def isSepChar (c : Char) : Bool := jsWsChar c || c = '-'

/-- ASCII lowercasing, as `String.prototype.toLowerCase` acts on the `A`-`Z`
range.  No character outside `A`-`Z` lowercases to any character of the two
extensions `".pdf"` / `".docx"` that the lowercased result is compared against,
so leaving non-ASCII characters unchanged is observation-equivalent here. -/
def asciiLower (c : Char) : Char :=
  if 'A' ≤ c && c ≤ 'Z' then Char.ofNat (c.toNat + 32) else c

/-! ## The JSON data model (result of `JSON.parse`)

Numbers are kept as their source lexeme: no claim depends on numeric-value
semantics, and this keeps the model exact (no floating point). -/

inductive Json where
  | jnull
  | jbool (b : Bool)
  | jnum (lexeme : String)
  | jstr (s : String)
  | jarr (elems : List Json)
  | jobj (fields : List (String × Json))

/-! ## Embedding of `JSON.parse`

A fuel-based recursive-descent parser for the JSON grammar (ECMA-404, which is
what `JSON.parse` accepts): values `null`/`true`/`false`/string/number/array/
object, insignificant whitespace restricted to space, tab, LF, CR.  `none`
models a thrown `SyntaxError`.  The fuel `length + 1` is always sufficient:
every recursion into a nested value consumes at least one input character
first.  One modelling note: `\uXXXX` escapes are decoded with `Char.ofNat`, so
lone UTF-16 surrogates (representable in a JS string, not in a Lean `Char`)
fall outside the model; no claim involves them. -/

/-- JSON insignificant whitespace (`JSON.parse`, not the `\s` class). -/
def jsonWsChar (c : Char) : Bool :=
  c = ' ' || c = '\t' || c = '\n' || c = '\r'

def skipJsonWs (l : List Char) : List Char := l.dropWhile jsonWsChar

def isHexDigitChar (c : Char) : Bool :=
  ('0' ≤ c && c ≤ '9') || ('a' ≤ c && c ≤ 'f') || ('A' ≤ c && c ≤ 'F')

def hexVal (c : Char) : Nat :=
  if '0' ≤ c && c ≤ '9' then c.toNat - 48
  else if 'a' ≤ c && c ≤ 'f' then c.toNat - 87
  else c.toNat - 55

/-- Body of a JSON string literal after the opening quote; returns the decoded
string and the input after the closing quote.  Unescaped control characters
are a syntax error, as in `JSON.parse`. -/
def jsonStringRest (acc : List Char) : List Char → Option (String × List Char)
  | '"' :: rest => some (String.mk acc.reverse, rest)
  | '\\' :: 'u' :: h1 :: h2 :: h3 :: h4 :: rest =>
    if isHexDigitChar h1 && isHexDigitChar h2 && isHexDigitChar h3 &&
        isHexDigitChar h4 then
      jsonStringRest
        (Char.ofNat (((hexVal h1 * 16 + hexVal h2) * 16 + hexVal h3) * 16 +
          hexVal h4) :: acc) rest
    else none
  | '\\' :: e :: rest =>
    if e = '"' then jsonStringRest ('"' :: acc) rest
    else if e = '\\' then jsonStringRest ('\\' :: acc) rest
    else if e = '/' then jsonStringRest ('/' :: acc) rest
    else if e = 'b' then jsonStringRest ('\x08' :: acc) rest
    else if e = 'f' then jsonStringRest ('\x0c' :: acc) rest
    else if e = 'n' then jsonStringRest ('\n' :: acc) rest
    else if e = 'r' then jsonStringRest ('\r' :: acc) rest
    else if e = 't' then jsonStringRest ('\t' :: acc) rest
    else none
  | c :: rest =>
    if c.toNat < 32 then none else jsonStringRest (c :: acc) rest
  | [] => none

/-- JSON number integer part: `0` or a nonzero digit followed by digits. -/
def jsonIntPart : List Char → Option (List Char × List Char)
  | '0' :: rest => some (['0'], rest)
  | c :: rest =>
    if '1' ≤ c && c ≤ '9' then
      some (c :: rest.takeWhile isDigitChar, rest.dropWhile isDigitChar)
    else none
  | [] => none

/-- JSON number fraction part: `.` followed by at least one digit, or empty. -/
def jsonFracPart : List Char → Option (List Char × List Char)
  | '.' :: rest =>
    let ds := rest.takeWhile isDigitChar
    if ds.isEmpty then none
    else some ('.' :: ds, rest.dropWhile isDigitChar)
  | l => some ([], l)

/-- JSON number exponent part: `e`/`E`, optional sign, at least one digit. -/
def jsonExpPart : List Char → Option (List Char × List Char)
  | e :: rest =>
    if e = 'e' || e = 'E' then
      match rest with
      | s :: rest2 =>
        if s = '+' || s = '-' then
          let ds := rest2.takeWhile isDigitChar
          if ds.isEmpty then none
          else some (e :: s :: ds, rest2.dropWhile isDigitChar)
        else
          let ds := rest.takeWhile isDigitChar
          if ds.isEmpty then none
          else some (e :: ds, rest.dropWhile isDigitChar)
      | [] => none
    else some ([], e :: rest)
  | [] => some ([], [])

/-- A JSON number literal; returns its lexeme and the remaining input. -/
def jsonNumber (l : List Char) : Option (String × List Char) :=
  let (neg, l1) := match l with
    | '-' :: r => (['-'], r)
    | _ => (([] : List Char), l)
  match jsonIntPart l1 with
  | none => none
  | some (ip, l2) =>
    match jsonFracPart l2 with
    | none => none
    | some (fp, l3) =>
      match jsonExpPart l3 with
      | none => none
      | some (ep, l4) => some (String.mk (neg ++ ip ++ fp ++ ep), l4)

mutual

/-- One JSON value (leading whitespace allowed), with fuel. -/
def jsonValue : Nat → List Char → Option (Json × List Char)
  | 0, _ => none
  | fuel + 1, l =>
    match skipJsonWs l with
    | 'n' :: 'u' :: 'l' :: 'l' :: r => some (Json.jnull, r)
    | 't' :: 'r' :: 'u' :: 'e' :: r => some (Json.jbool true, r)
    | 'f' :: 'a' :: 'l' :: 's' :: 'e' :: r => some (Json.jbool false, r)
    | '"' :: r => (jsonStringRest [] r).map (fun p => (Json.jstr p.1, p.2))
    | '{' :: r =>
      (match skipJsonWs r with
       | '}' :: r2 => some (Json.jobj [], r2)
       | r2 => jsonMembers fuel r2 [])
    | '[' :: r =>
      (match skipJsonWs r with
       | ']' :: r2 => some (Json.jarr [], r2)
       | r2 => jsonItems fuel r2 [])
    | l2 => (jsonNumber l2).map (fun p => (Json.jnum p.1, p.2))

/-- Nonempty object member list, then the closing `}`. -/
def jsonMembers : Nat → List Char → List (String × Json) →
    Option (Json × List Char)
  | 0, _, _ => none
  | fuel + 1, l, acc =>
    match skipJsonWs l with
    | '"' :: r =>
      (match jsonStringRest [] r with
       | none => none
       | some (k, r2) =>
         match skipJsonWs r2 with
         | ':' :: r3 =>
           (match jsonValue fuel r3 with
            | none => none
            | some (v, r4) =>
              match skipJsonWs r4 with
              | ',' :: r5 => jsonMembers fuel r5 (acc ++ [(k, v)])
              | '}' :: r5 => some (Json.jobj (acc ++ [(k, v)]), r5)
              | _ => none)
         | _ => none)
    | _ => none

/-- Nonempty array item list, then the closing `]`. -/
def jsonItems : Nat → List Char → List Json → Option (Json × List Char)
  | 0, _, _ => none
  | fuel + 1, l, acc =>
    match jsonValue fuel l with
    | none => none
    | some (v, r) =>
      match skipJsonWs r with
      | ',' :: r2 => jsonItems fuel r2 (acc ++ [v])
      | ']' :: r2 => some (Json.jarr (acc ++ [v]), r2)
      | _ => none

end

/-- Embedding of `JSON.parse`: parse one value, then only trailing whitespace
may remain.  `none` models a thrown `SyntaxError`. -/
def jsonParse (l : List Char) : Option Json :=
  match jsonValue (l.length + 1) l with
  | some (v, rest) => if (skipJsonWs rest).isEmpty then some v else none
  | none => none

/-- `JSON.parse` on a `String`. -/
def jsonParseS (s : String) : Option Json := jsonParse s.data

/-! ## The Structured-Response Decoder (`extractJSON`)

Fallback regex of both variants: `/(\{[\s\S]*\}|\[[\s\S]*\])/`.  Its meaning on
a JS engine: scanning start positions left to right, the first position
bearing `{` with some later `}` (or `[` with some later `]`) wins, and the
greedy `[\s\S]*` extends the match to the LAST such closing character in the
whole input - not balanced-bracket matching. -/

/-- Prefix of `l` up to and including the last occurrence of `c` (meaningful
when `c ∈ l`). -/
def takeToLast (c : Char) (l : List Char) : List Char :=
  (l.reverse.dropWhile (fun d => d ≠ c)).reverse

/-- One attempt of the fallback regex anchored at the head of `l`. -/
def bmAt (l : List Char) : Option (List Char) :=
  match l with
  | c :: rest =>
    if c = '{' then
      if '}' ∈ rest then some ('{' :: takeToLast '}' rest) else none
    else if c = '[' then
      if ']' ∈ rest then some ('[' :: takeToLast ']' rest) else none
    else none
  | [] => none

/-- Leftmost match of the fallback regex: `text.match(/(\{[\s\S]*\}|\[[\s\S]*\])/)`,
the matched substring `match[0]`. -/
def bracketMatch : List Char → Option (List Char)
  | [] => none
  | c :: rest =>
    match bmAt (c :: rest) with
    | some m => some m
    | none => bracketMatch rest

/-- Outcome of a call to `extractJSON`: a returned parsed value, a returned
`null` (the absent marker), or an exception escaping the function. -/
inductive JsOutcome where
  | value (v : Json)
  | nullv
  | raised

/-- `extractJSON` of `src/index.js`: the fallback `JSON.parse(match[0])` sits
inside the `catch` block with no further protection, so its failure escapes
the function. -/
def extractJSONIndex (t : List Char) : JsOutcome :=
  match jsonParse t with
  | some v => JsOutcome.value v
  | none =>
    match bracketMatch t with
    | some m =>
      (match jsonParse m with
       | some v => JsOutcome.value v
       | none => JsOutcome.raised)
    | none => JsOutcome.nullv

/-- `extractJSON` of `src/unnamed/part_000`: the fallback parse is wrapped in
its own `try`/`catch` returning `null`. -/
def extractJSONPart (t : List Char) : JsOutcome :=
  match jsonParse t with
  | some v => JsOutcome.value v
  | none =>
    match bracketMatch t with
    | some m =>
      (match jsonParse m with
       | some v => JsOutcome.value v
       | none => JsOutcome.nullv)
    | none => JsOutcome.nullv

def extractJSONIndexS (s : String) : JsOutcome := extractJSONIndex s.data

def extractJSONPartS (s : String) : JsOutcome := extractJSONPart s.data

def bracketMatchS (s : String) : Option String :=
  (bracketMatch s.data).map String.mk

/-! ## Field heuristics: `extractEmail`, `extractPhone`, `extractName`

Identical in both source variants. -/

/-- Generic leftmost-match scanner: `f` reports the length matched at the head
of a suffix; the scan tries every start position left to right, as the JS
regex engine does for an unanchored pattern. -/
def scanMatch (f : List Char → Option Nat) : List Char → Option (List Char)
  | [] => (f []).map (fun n => (([] : List Char)).take n)
  | c :: rest =>
    match f (c :: rest) with
    | some n => some ((c :: rest).take n)
    | none => scanMatch f rest

/-- Backtracking search for the domain tail `\.[a-z]{2,}` (or, in the
claim-side case-insensitive variant, `\.[a-zA-Z]{2,}`) inside the maximal
`[a-zA-Z0-9.-]+` run `dom`: the engine shrinks the greedy `+` from the right,
so the LARGEST index `e ≥ 1` with `dom[e] = '.'` followed by at least two
`tld`-letters wins; the greedy `{2,}` then takes the maximal letter run.
Returns `(e, length of that letter run)`. -/
def domSplitFrom (tld : Char → Bool) (dom : List Char) : Nat → Option (Nat × Nat)
  | 0 => none
  | e + 1 =>
    let tl := ((dom.drop (e + 2)).takeWhile tld).length
    if dom.get? (e + 1) = some '.' && decide (2 ≤ tl) then some (e + 1, tl)
    else domSplitFrom tld dom e

/-- Match attempt of `/[a-zA-Z0-9._%+-]+@[a-zA-Z0-9.-]+\.[a-z]{2,}/` anchored
at the head of `l`, parameterised by the TLD letter class; returns the length
matched.  The greedy local-part run is forced (`@` is not a local character),
and the `tld` letters are a subset of the domain class, so the whole match
lies within `local ++ '@' ++ dom`. -/
def matchEmailAtWith (tld : Char → Bool) (l : List Char) : Option Nat :=
  let loc := l.takeWhile isLocalChar
  match l.dropWhile isLocalChar with
  | c :: r2 =>
    if c = '@' then
      if loc.isEmpty then none
      else
        let dom := r2.takeWhile isDomainChar
        match domSplitFrom tld dom (dom.length - 1) with
        | some (e, tl) => some (loc.length + 1 + e + 1 + tl)
        | none => none
    else none
  | [] => none

/-- The source pattern: TLD is `[a-z]{2,}`, lowercase only (the regex carries
no `i` flag). -/
def matchEmailAt : List Char → Option Nat := matchEmailAtWith isLowerAZ

/-- `extractEmail`: leftmost match of the email pattern, else `null`. -/
def extractEmail (t : List Char) : Option (List Char) := scanMatch matchEmailAt t

/-- Modelled from the spec: the spec's words make the TLD letters
case-insensitive (`\.[a-zA-Z]{2,}`); this claim-side variant exists only to be
compared against the source's lowercase-only pattern. -/
def extractEmailSpecCI (t : List Char) : Option (List Char) :=
  scanMatch (matchEmailAtWith isAsciiLetterChar) t

/-- Alternation `(\d{10}|\d{3}[\s-]\d{3}[\s-]\d{4})` anchored at the head. -/
def matchPhoneAlt (l : List Char) : Option Nat :=
  if decide (10 ≤ (l.takeWhile isDigitChar).length) then some 10
  else if decide (3 ≤ (l.takeWhile isDigitChar).length) then
    match l.drop 3 with
    | s1 :: r2 =>
      if isSepChar s1 && decide (3 ≤ (r2.takeWhile isDigitChar).length) then
        match r2.drop 3 with
        | s2 :: r3 =>
          if isSepChar s2 && decide (4 ≤ (r3.takeWhile isDigitChar).length) then
            some 12
          else none
        | [] => none
      else none
    | [] => none
  else none

/-- Country-code digits of `\d{1,3}` (greedy, backtracking from `k` digits
down to 1), then the optional separator `[\s-]?` (present preferred), then the
alternation.  `k` never exceeds the length of the digit run at `l`. -/
def phoneDigitsThenAlt (l : List Char) : Nat → Option Nat
  | 0 => none
  | k + 1 =>
    (match l.drop (k + 1) with
     | s :: r2 =>
       if isSepChar s then (matchPhoneAlt r2).map (fun n => k + 1 + 1 + n)
       else none
     | [] => none).orElse
      (fun _ => (matchPhoneAlt (l.drop (k + 1))).map (fun n => k + 1 + n))
    |>.orElse (fun _ => phoneDigitsThenAlt l k)

/-- Match attempt of `/(\+?\d{1,3}[\s-]?)?(\d{10}|\d{3}[\s-]\d{3}[\s-]\d{4})/`
anchored at the head: the optional group is preferred present (`\+?` likewise),
and a group attempt that cannot start (no `+`, no digit) falls through to the
bare alternation. -/
def matchPhoneAt (l : List Char) : Option Nat :=
  (match l with
   | '+' :: r =>
     (phoneDigitsThenAlt r (min 3 ((r.takeWhile isDigitChar).length))).map
       (fun n => 1 + n)
   | _ => phoneDigitsThenAlt l (min 3 ((l.takeWhile isDigitChar).length))).orElse
    (fun _ => matchPhoneAlt l)

/-- `extractPhone`: leftmost match of the phone pattern, else `null`. -/
def extractPhone (t : List Char) : Option (List Char) := scanMatch matchPhoneAt t

/-- `text.split(/\r?\n/)`: split at each `\n`, additionally consuming an
immediately preceding `\r`; a lone `\r` does not split. -/
def splitLinesJs : List Char → List (List Char)
  | [] => [[]]
  | '\r' :: '\n' :: rest => [] :: splitLinesJs rest
  | '\n' :: rest => [] :: splitLinesJs rest
  | c :: rest =>
    match splitLinesJs rest with
    | [] => [[c]]
    | p :: ps => (c :: p) :: ps

/-- `String.prototype.trim`. -/
def trimJs (l : List Char) : List Char :=
  ((l.dropWhile jsWsChar).reverse.dropWhile jsWsChar).reverse

/-- `s.split(" ")`: split at every single space character; consecutive spaces
produce empty pieces, and no other whitespace separates. -/
def splitOnSpace : List Char → List (List Char)
  | [] => [[]]
  | ' ' :: rest => [] :: splitOnSpace rest
  | c :: rest =>
    match splitOnSpace rest with
    | [] => [[c]]
    | p :: ps => (c :: p) :: ps

/-- `/resume/i` anchored at the head: the next six characters ASCII-lowercase
to `resume`. -/
def resumeAt (l : List Char) : Bool :=
  match l with
  | a :: b :: c :: d :: e :: f :: _ =>
    asciiLower a = 'r' && asciiLower b = 'e' && asciiLower c = 's' &&
    asciiLower d = 'u' && asciiLower e = 'm' && asciiLower f = 'e'
  | _ => false

/-- `/resume/i.test(s)`: some position starts the substring. -/
def hasResumeCI : List Char → Bool
  | [] => false
  | c :: rest => resumeAt (c :: rest) || hasResumeCI rest

/-- The loop-body condition of `extractName`:
`!/resume/i.test(s) && /[A-Za-z]/.test(s) && s.split(" ").length <= 4`. -/
def nameOk (s : List Char) : Bool :=
  !hasResumeCI s && s.any isAsciiLetterChar &&
    decide ((splitOnSpace s).length ≤ 4)

/-- The non-empty trimmed lines:
`t.split(/\r?\n/).map(l => l.trim()).filter(Boolean)`. -/
def linesOf (t : List Char) : List (List Char) :=
  ((splitLinesJs t).map trimJs).filter (fun l => !l.isEmpty)

/-- The `for (let i = 0; i < Math.min(6, lines.length); i++)` loop. -/
def nameLoop : Nat → List (List Char) → Option (List Char)
  | 0, _ => none
  | _, [] => none
  | k + 1, s :: rest => if nameOk s then some s else nameLoop k rest

/-- `extractName`: first of the first six non-empty trimmed lines passing
`nameOk`, else `null`. -/
def extractName (t : List Char) : Option (List Char) :=
  nameLoop 6 (linesOf t)

def extractEmailS (s : String) : Option String := (extractEmail s.data).map String.mk

def extractPhoneS (s : String) : Option String := (extractPhone s.data).map String.mk

def extractNameS (s : String) : Option String := (extractName s.data).map String.mk

/-! ## JS truthiness of JSON-shaped request/response values -/

/-- A JSON number lexeme denotes zero exactly when its mantissa has no nonzero
digit (extreme underflow to floating zero is outside the model; every claim's
values are well within range). -/
def jsNumIsZero (s : String) : Bool :=
  (s.data.takeWhile (fun c => c ≠ 'e' && c ≠ 'E')).all
    (fun c => !('1' ≤ c && c ≤ '9'))

/-- JS truthiness of a parsed JSON value (`null`, `false`, `0`, `""` are
falsy; every array and object is truthy). -/
def jsTruthy : Json → Bool
  | Json.jnull => false
  | Json.jbool b => b
  | Json.jnum s => !jsNumIsZero s
  | Json.jstr s => !s.isEmpty
  | Json.jarr _ => true
  | Json.jobj _ => true

/-- Truthiness of a possibly-absent body field (`undefined` is falsy). -/
def truthyOpt : Option Json → Bool
  | none => false
  | some v => jsTruthy v

/-! ## The HTTP endpoint layer

Each handler is a pure function of the request shape and the outcomes of the
external collaborators, returning the HTTP status, the JSON body, and the
observable effects the claims are about.  Prompt construction is pure string
building consumed only by the external LLM gateway, whose outcome is the
`reply` argument (`none` models a thrown gateway error); `llmCalled` records
whether control reached the `model.generateContent` call. -/

structure AiResult where
  status : Nat
  body : Json
  llmCalled : Bool

/-- An error response body `{error: msg}`. -/
def errBody (msg : String) : Json := Json.jobj [("error", Json.jstr msg)]

/-- `POST /api/generate-questions` of `src/index.js`: no check on the decoder
result; `res.json({questions})` is reached even when `extractJSON` returned
`null`. -/
def genQuestionsIndex (reply : Option String) : AiResult :=
  match reply with
  | none => ⟨500, errBody "Gemini question generation failed", true⟩
  | some r =>
    match extractJSONIndexS r with
    | JsOutcome.value v => ⟨200, Json.jobj [("questions", v)], true⟩
    | JsOutcome.nullv => ⟨200, Json.jobj [("questions", Json.jnull)], true⟩
    | JsOutcome.raised => ⟨500, errBody "Gemini question generation failed", true⟩

/-- `POST /api/generate-questions` of `src/unnamed/part_000`:
`if (!questions) throw ...` turns a falsy decoder result into the 500. -/
def genQuestionsPart (reply : Option String) : AiResult :=
  match reply with
  | none => ⟨500, errBody "Gemini question generation failed", true⟩
  | some r =>
    match extractJSONPartS r with
    | JsOutcome.value v =>
      if jsTruthy v then ⟨200, Json.jobj [("questions", v)], true⟩
      else ⟨500, errBody "Gemini question generation failed", true⟩
    | JsOutcome.nullv => ⟨500, errBody "Gemini question generation failed", true⟩
    | JsOutcome.raised => ⟨500, errBody "Gemini question generation failed", true⟩

/-- `POST /api/grade-answer` of `src/index.js`: after the `question`/`answer`
truthiness check, `res.json(extractJSON(...))` is returned unchecked, so a
`null` decode is a 200 with body `null`. -/
def gradeAnswerIndex (question answer : Option Json) (reply : Option String) :
    AiResult :=
  if !(truthyOpt question && truthyOpt answer) then
    ⟨400, errBody "Missing data", false⟩
  else
    match reply with
    | none => ⟨500, errBody "Gemini grading failed", true⟩
    | some r =>
      match extractJSONIndexS r with
      | JsOutcome.value v => ⟨200, v, true⟩
      | JsOutcome.nullv => ⟨200, Json.jnull, true⟩
      | JsOutcome.raised => ⟨500, errBody "Gemini grading failed", true⟩

/-- `POST /api/grade-answer` of `src/unnamed/part_000`: adds
`if (!grading) throw ...`. -/
def gradeAnswerPart (question answer : Option Json) (reply : Option String) :
    AiResult :=
  if !(truthyOpt question && truthyOpt answer) then
    ⟨400, errBody "Missing data", false⟩
  else
    match reply with
    | none => ⟨500, errBody "Gemini grading failed", true⟩
    | some r =>
      match extractJSONPartS r with
      | JsOutcome.value v =>
        if jsTruthy v then ⟨200, v, true⟩
        else ⟨500, errBody "Gemini grading failed", true⟩
      | JsOutcome.nullv => ⟨500, errBody "Gemini grading failed", true⟩
      | JsOutcome.raised => ⟨500, errBody "Gemini grading failed", true⟩

/-- The caller-supplied `candidate` object for `final-summary`.  A request
whose `candidate` field is absent or a falsy primitive is modelled as `none`
at the handler argument. -/
structure CandidateObj where
  name : Option Json
  answers : Option Json

/-- `POST /api/final-summary` of `src/index.js`: only `if (!candidate)` is
checked; a candidate lacking `answers` proceeds to the gateway call, and a
`null` decode is a 200 with body `null`. -/
def finalSummaryIndex (candidate : Option CandidateObj)
    (reply : Option String) : AiResult :=
  match candidate with
  | none => ⟨400, errBody "Missing candidate data", false⟩
  | some _ =>
    match reply with
    | none => ⟨500, errBody "Gemini summary failed", true⟩
    | some r =>
      match extractJSONIndexS r with
      | JsOutcome.value v => ⟨200, v, true⟩
      | JsOutcome.nullv => ⟨200, Json.jnull, true⟩
      | JsOutcome.raised => ⟨500, errBody "Gemini summary failed", true⟩

/-- `POST /api/final-summary` of `src/unnamed/part_000`:
`if (!candidate || !candidate.answers)` guards the gateway call, and
`if (!summary) throw ...` guards the response. -/
def finalSummaryPart (candidate : Option CandidateObj)
    (reply : Option String) : AiResult :=
  match candidate with
  | none => ⟨400, errBody "Missing candidate data", false⟩
  | some c =>
    if !truthyOpt c.answers then ⟨400, errBody "Missing candidate data", false⟩
    else
      match reply with
      | none => ⟨500, errBody "Gemini summary failed", true⟩
      | some r =>
        match extractJSONPartS r with
        | JsOutcome.value v =>
          if jsTruthy v then ⟨200, v, true⟩
          else ⟨500, errBody "Gemini summary failed", true⟩
        | JsOutcome.nullv => ⟨500, errBody "Gemini summary failed", true⟩
        | JsOutcome.raised => ⟨500, errBody "Gemini summary failed", true⟩

/-! ## `POST /api/parse-resume` -/

/-- Node's `path.extname` (POSIX): the substring of the basename from its last
`.` to the end; empty when there is no dot, when the only role of the dot is
to lead a dotfile name, or for the special basename `..`. -/
def extnameL (l : List Char) : List Char :=
  let b := (l.reverse.takeWhile (fun c => c ≠ '/')).reverse
  let after := b.reverse.takeWhile (fun c => c ≠ '.')
  if after.length = b.length then []
  else if b = ['.', '.'] then []
  else if b.length - after.length - 1 = 0 then []
  else b.drop (b.length - after.length - 1)

def extnameS (s : String) : String := String.mk (extnameL s.data)

def lowerS (s : String) : String := String.mk (s.data.map asciiLower)

/-- Which external document decoder a request reached. -/
inductive DecKind where
  | pdf
  | docx

/-- Outcome of the chosen document-decoding collaborator (`pdf-parse` along
with the preceding `fs.readFileSync`, or `mammoth`): a thrown error, or a
returned text that may itself be absent (the `|| ""` in the source). -/
inductive ExtractRes where
  | threw
  | ok (text : Option String)

/-- HTTP outcome of one `parse-resume` request, with the observable effects:
how many times `fs.unlinkSync` ran on the staged temp file, and which decoder
(if any) was invoked. -/
structure PRResult where
  status : Nat
  body : Json
  unlinks : Nat
  decoder : Option DecKind

def optStrJson : Option String → Json
  | none => Json.jnull
  | some s => Json.jstr s

/-- The 200 body `{name, email, phone, text}` derived by the field
heuristics. -/
def profileBody (text : String) : Json :=
  Json.jobj [("name", optStrJson (extractNameS text)),
             ("email", optStrJson (extractEmailS text)),
             ("phone", optStrJson (extractPhoneS text)),
             ("text", Json.jstr text)]

/-- `POST /api/parse-resume` of `src/index.js`: no `fs.unlink` call exists on
any path of this variant. -/
def parseResumeIndex (file : Option String) (res : ExtractRes) : PRResult :=
  match file with
  | none => ⟨400, errBody "No file uploaded", 0, none⟩
  | some fname =>
    let ext := lowerS (extnameS fname)
    if ext = ".pdf" then
      match res with
      | ExtractRes.threw => ⟨500, errBody "Failed to parse resume", 0, some DecKind.pdf⟩
      | ExtractRes.ok t => ⟨200, profileBody (t.getD ""), 0, some DecKind.pdf⟩
    else if ext = ".docx" then
      match res with
      | ExtractRes.threw => ⟨500, errBody "Failed to parse resume", 0, some DecKind.docx⟩
      | ExtractRes.ok t => ⟨200, profileBody (t.getD ""), 0, some DecKind.docx⟩
    else ⟨400, errBody "Only PDF or DOCX allowed", 0, none⟩

/-- `POST /api/parse-resume` of `src/unnamed/part_000`: `fs.unlinkSync` runs
once before the unsupported-format 400 and once after a successful extraction,
but a throwing extraction jumps to the `catch` without reaching it. -/
def parseResumePart (file : Option String) (res : ExtractRes) : PRResult :=
  match file with
  | none => ⟨400, errBody "No file uploaded", 0, none⟩
  | some fname =>
    let ext := lowerS (extnameS fname)
    if ext = ".pdf" then
      match res with
      | ExtractRes.threw => ⟨500, errBody "Failed to parse resume", 0, some DecKind.pdf⟩
      | ExtractRes.ok t => ⟨200, profileBody (t.getD ""), 1, some DecKind.pdf⟩
    else if ext = ".docx" then
      match res with
      | ExtractRes.threw => ⟨500, errBody "Failed to parse resume", 0, some DecKind.docx⟩
      | ExtractRes.ok t => ⟨200, profileBody (t.getD ""), 1, some DecKind.docx⟩
    else ⟨400, errBody "Only PDF or DOCX allowed", 1, none⟩

/-! ## Claim-side notions (defined from the claims' words, for comparison) -/

/-- Fuelled worker for `specWsTokens`; every step either consumes the leading
whitespace character or emits the leading token, so fuel `length + 1` always
suffices. -/
def specWsTokensGo : Nat → List Char → List (List Char)
  | 0, _ => []
  | _, [] => []
  | fuel + 1, c :: rest =>
    if jsWsChar c then specWsTokensGo fuel rest
    else
      (c :: rest.takeWhile (fun d => !jsWsChar d)) ::
        specWsTokensGo fuel (rest.dropWhile (fun d => !jsWsChar d))

/-- Modelled from the claim: "splits into 4 or fewer whitespace-separated
tokens" - tokens separated by runs of whitespace, empties discarded. -/
def specWsTokens (l : List Char) : List (List Char) :=
  specWsTokensGo (l.length + 1) l

/-! ## Supporting lemmas -/

/-- `s` occurs as a contiguous segment of `t`. -/
def isSubseg (s t : List Char) : Prop := ∃ pre suf, pre ++ s ++ suf = t

theorem isSubseg_trans {a b c : List Char} (h1 : isSubseg a b)
    (h2 : isSubseg b c) : isSubseg a c := by
  obtain ⟨p1, s1, e1⟩ := h1
  obtain ⟨p2, s2, e2⟩ := h2
  subst e1
  exact ⟨p2 ++ p1, s1 ++ s2, by rw [← e2]; simp [List.append_assoc]⟩

theorem take_drop_isSubseg (l : List Char) (i n : Nat) :
    isSubseg ((l.drop i).take n) l :=
  ⟨l.take i, (l.drop i).drop n, by
    rw [List.append_assoc, List.take_append_drop, List.take_append_drop]⟩

theorem scanMatch_eq_some (f : List Char → Option Nat) :
    ∀ (l : List Char) (s : List Char), scanMatch f l = some s →
      ∃ i n, (∀ j, j < i → f (l.drop j) = none) ∧ f (l.drop i) = some n ∧
        s = (l.drop i).take n := by
  intro l
  induction l with
  | nil =>
    intro s h
    simp only [scanMatch] at h
    cases hf : f [] with
    | none => rw [hf] at h; simp at h
    | some n =>
      rw [hf] at h
      simp only [Option.map_some', Option.some.injEq] at h
      refine ⟨0, n, fun j hj => absurd hj (Nat.not_lt_zero j), by simpa using hf, ?_⟩
      simpa using h.symm
  | cons c rest ih =>
    intro s h
    simp only [scanMatch] at h
    cases hf : f (c :: rest) with
    | some n =>
      rw [hf] at h
      simp only [Option.some.injEq] at h
      refine ⟨0, n, fun j hj => absurd hj (Nat.not_lt_zero j), by simpa using hf, ?_⟩
      simpa using h.symm
    | none =>
      rw [hf] at h
      obtain ⟨i, n, hall, hfi, hs⟩ := ih s h
      refine ⟨i + 1, n, ?_, by simpa using hfi, by simpa using hs⟩
      intro j hj
      cases j with
      | zero => simpa using hf
      | succ j => simpa using hall j (by omega)

theorem scanMatch_eq_none (f : List Char → Option Nat) :
    ∀ (l : List Char), scanMatch f l = none → ∀ i, f (l.drop i) = none := by
  intro l
  induction l with
  | nil =>
    intro h i
    simp only [scanMatch] at h
    cases hf : f [] with
    | none => simpa using hf
    | some n => rw [hf] at h; simp at h
  | cons c rest ih =>
    intro h i
    simp only [scanMatch] at h
    cases hf : f (c :: rest) with
    | some n => rw [hf] at h; simp at h
    | none =>
      rw [hf] at h
      cases i with
      | zero => simpa using hf
      | succ i => simpa using ih h i

theorem splitLinesJs_headPre :
    ∀ (t p : List Char) (ps : List (List Char)),
      splitLinesJs t = p :: ps → ∃ suf, p ++ suf = t := by
  intro t
  induction t using splitLinesJs.induct with
  | case1 =>
    intro p ps h
    rw [splitLinesJs.eq_1] at h
    injection h with h1 _
    exact ⟨[], by simp [← h1]⟩
  | case2 rest ih =>
    intro p ps h
    rw [splitLinesJs.eq_2] at h
    injection h with h1 _
    exact ⟨'\r' :: '\n' :: rest, by simp [← h1]⟩
  | case3 rest ih =>
    intro p ps h
    rw [splitLinesJs.eq_3] at h
    injection h with h1 _
    exact ⟨'\n' :: rest, by simp [← h1]⟩
  | case4 c rest hn1 hn2 hnil ih =>
    intro p ps h
    rw [splitLinesJs.eq_4 c rest hn1 hn2, hnil] at h
    injection h with h1 _
    exact ⟨rest, by simp [← h1]⟩
  | case5 c rest hn1 hn2 p' ps' heq ih =>
    intro p ps h
    rw [splitLinesJs.eq_4 c rest hn1 hn2, heq] at h
    injection h with h1 _
    obtain ⟨suf, hsuf⟩ := ih p' ps' heq
    exact ⟨suf, by simp [← h1, ← hsuf]⟩

theorem mem_splitLinesJs_isSubseg :
    ∀ (t m : List Char), m ∈ splitLinesJs t → isSubseg m t := by
  intro t
  induction t using splitLinesJs.induct with
  | case1 =>
    intro m hm
    rw [splitLinesJs.eq_1] at hm
    simp at hm
    exact ⟨[], [], by simp [hm]⟩
  | case2 rest ih =>
    intro m hm
    rw [splitLinesJs.eq_2] at hm
    rcases List.mem_cons.mp hm with h | h
    · exact ⟨[], '\r' :: '\n' :: rest, by simp [h]⟩
    · obtain ⟨pre, suf, he⟩ := ih m h
      exact ⟨'\r' :: '\n' :: pre, suf, by simp [← he]⟩
  | case3 rest ih =>
    intro m hm
    rw [splitLinesJs.eq_3] at hm
    rcases List.mem_cons.mp hm with h | h
    · exact ⟨[], '\n' :: rest, by simp [h]⟩
    · obtain ⟨pre, suf, he⟩ := ih m h
      exact ⟨'\n' :: pre, suf, by simp [← he]⟩
  | case4 c rest hn1 hn2 hnil ih =>
    intro m hm
    rw [splitLinesJs.eq_4 c rest hn1 hn2, hnil] at hm
    simp at hm
    exact ⟨[], rest, by simp [hm]⟩
  | case5 c rest hn1 hn2 p' ps' heq ih =>
    intro m hm
    rw [splitLinesJs.eq_4 c rest hn1 hn2, heq] at hm
    rcases List.mem_cons.mp hm with h | h
    · obtain ⟨suf, hsuf⟩ := splitLinesJs_headPre rest p' ps' heq
      exact ⟨[], suf, by simp [h, ← hsuf]⟩
    · obtain ⟨pre, suf, he⟩ := ih m (heq ▸ List.mem_cons_of_mem p' h)
      exact ⟨c :: pre, suf, by simp [← he]⟩

theorem trimJs_isSubseg (l : List Char) : isSubseg (trimJs l) l := by
  refine ⟨l.takeWhile jsWsChar,
    ((l.dropWhile jsWsChar).reverse.takeWhile jsWsChar).reverse, ?_⟩
  conv_rhs => rw [← List.takeWhile_append_dropWhile (p := jsWsChar) (l := l)]
  rw [List.append_assoc]
  congr 1
  unfold trimJs
  rw [← List.reverse_append, List.takeWhile_append_dropWhile,
    List.reverse_reverse]

theorem nameLoop_mem :
    ∀ (k : Nat) (lines : List (List Char)) (s : List Char),
      nameLoop k lines = some s → s ∈ lines := by
  intro k
  induction k with
  | zero => intro lines s h; simp [nameLoop] at h
  | succ k ih =>
    intro lines s h
    cases lines with
    | nil => simp [nameLoop] at h
    | cons a rest =>
      by_cases ha : nameOk a
      · simp only [nameLoop, ha, if_true, Option.some.injEq] at h
        simp [← h]
      · simp only [nameLoop, ha, if_false] at h
        exact List.mem_cons_of_mem a (ih rest s h)

theorem nameLoop_eq_find :
    ∀ (k : Nat) (lines : List (List Char)),
      nameLoop k lines = (lines.take k).find? nameOk := by
  intro k
  induction k with
  | zero => intro lines; simp [nameLoop]
  | succ k ih =>
    intro lines
    cases lines with
    | nil => simp [nameLoop]
    | cons a rest =>
      by_cases ha : nameOk a
      · simp [nameLoop, ha, List.find?]
      · simp [nameLoop, ha, List.find?, ih rest]

/-- C10: whenever `extractEmail`, `extractPhone`, or `extractName` returns a
non-absent result, that result is a contiguous substring of the input text;
for `extractName` it is moreover one of the trimmed lines of the input. -/
theorem c10_results_are_substrings :
    ∀ (t s : String),
      (extractEmailS t = some s → isSubseg s.data t.data) ∧
      (extractPhoneS t = some s → isSubseg s.data t.data) ∧
      (extractNameS t = some s →
        s.data ∈ (splitLinesJs t.data).map trimJs ∧ isSubseg s.data t.data) := by
  intro t s
  refine ⟨?_, ?_, ?_⟩
  · intro h
    unfold extractEmailS at h
    cases he : extractEmail t.data with
    | none => rw [he] at h; simp at h
    | some lc =>
      rw [he] at h
      simp only [Option.map_some', Option.some.injEq] at h
      have hd : s.data = lc := by rw [← h]
      obtain ⟨i, n, _, _, hs⟩ :=
        scanMatch_eq_some matchEmailAt t.data lc he
      rw [hd, hs]
      exact take_drop_isSubseg t.data i n
  · intro h
    unfold extractPhoneS at h
    cases he : extractPhone t.data with
    | none => rw [he] at h; simp at h
    | some lc =>
      rw [he] at h
      simp only [Option.map_some', Option.some.injEq] at h
      have hd : s.data = lc := by rw [← h]
      obtain ⟨i, n, _, _, hs⟩ :=
        scanMatch_eq_some matchPhoneAt t.data lc he
      rw [hd, hs]
      exact take_drop_isSubseg t.data i n
  · intro h
    unfold extractNameS at h
    cases he : extractName t.data with
    | none => rw [he] at h; simp at h
    | some lc =>
      rw [he] at h
      simp only [Option.map_some', Option.some.injEq] at h
      have hd : s.data = lc := by rw [← h]
      have hmem : lc ∈ linesOf t.data := nameLoop_mem 6 _ lc he
      have hmap : lc ∈ (splitLinesJs t.data).map trimJs :=
        (List.mem_filter.mp hmem).1
      refine ⟨hd ▸ hmap, ?_⟩
      obtain ⟨line, hline, htrim⟩ := List.mem_map.mp hmap
      rw [hd, ← htrim]
      exact isSubseg_trans (trimJs_isSubseg line)
        (mem_splitLinesJs_isSubseg t.data line hline)

theorem c10_results_are_substrings_witness :
    isSubseg "a@b.cd".data "x a@b.cd y".data ∧
    isSubseg "9876543210".data "tel 9876543210!".data ∧
    ("Jane Doe".data ∈ (splitLinesJs "Jane Doe\nResume".data).map trimJs ∧
      isSubseg "Jane Doe".data "Jane Doe\nResume".data) :=
  ⟨(c10_results_are_substrings "x a@b.cd y" "a@b.cd").1 (by rfl),
   (c10_results_are_substrings "tel 9876543210!" "9876543210").2.1 (by rfl),
   (c10_results_are_substrings "Jane Doe\nResume" "Jane Doe").2.2 (by rfl)⟩

/-- Shared case analysis: when the `src/index.js` decoder returns `null`, no
bracket substring was found, so the `part_000` decoder returns `null` too. -/
theorem extractJSONIndex_nullv_part (t : String) :
    extractJSONIndexS t = JsOutcome.nullv →
    extractJSONPartS t = JsOutcome.nullv := by
  unfold extractJSONIndexS extractJSONIndex extractJSONPartS extractJSONPart
  cases hp : jsonParse t.data with
  | some v => intro h; simp at h
  | none =>
    cases hb : bracketMatch t.data with
    | none => intro h; rfl
    | some m =>
      cases hm : jsonParse m with
      | some v => intro h; simp [hm] at h
      | none => intro h; simp [hm] at h

/-- C1 (amended): the `part_000` decoder never raises, returning a parsed
value when either attempt succeeds and `null` exactly when the strict parse
fails and the fallback finds nothing or finds an unparseable substring; the
`src/index.js` decoder raises exactly when the strict parse fails, a bracket
substring is found, and that substring fails to parse, and returns `null`
only when no bracket substring exists. -/
theorem c1_decoder_exception_behavior :
    ∀ t : String,
      extractJSONPartS t ≠ JsOutcome.raised ∧
      (extractJSONIndexS t = JsOutcome.raised ↔
        jsonParseS t = none ∧
          ∃ m, bracketMatchS t = some m ∧ jsonParseS m = none) ∧
      (extractJSONIndexS t = JsOutcome.nullv ↔
        jsonParseS t = none ∧ bracketMatchS t = none) ∧
      (extractJSONPartS t = JsOutcome.nullv ↔
        jsonParseS t = none ∧
          ∀ m, bracketMatchS t = some m → jsonParseS m = none) ∧
      (∀ v, jsonParseS t = some v →
        extractJSONIndexS t = JsOutcome.value v ∧
        extractJSONPartS t = JsOutcome.value v) := by
  intro t
  unfold extractJSONPartS extractJSONIndexS extractJSONPart extractJSONIndex
    bracketMatchS jsonParseS
  cases hp : jsonParse t.data with
  | some v => simp [hp]
  | none =>
    cases hb : bracketMatch t.data with
    | none => simp [hp, hb]
    | some m =>
      cases hm : jsonParse m with
      | some v => simp [hp, hb, hm]
      | none => simp [hp, hb, hm]

theorem c1_decoder_exception_behavior_witness :
    extractJSONIndexS "[1]" = JsOutcome.value (Json.jarr [Json.jnum "1"]) ∧
    extractJSONPartS "[1]" = JsOutcome.value (Json.jarr [Json.jnum "1"]) :=
  (c1_decoder_exception_behavior "[1]").2.2.2.2
    (Json.jarr [Json.jnum "1"]) (by rfl)

/-- C1 counterexample: on the input `{bad}` the strict parse fails, the
fallback regex matches the whole input, and the fallback
`JSON.parse(match[0])` of `src/index.js` throws - `extractJSON` raises. -/
theorem c1_decoder_counterexample :
    extractJSONIndexS "\x7bbad\x7d" = JsOutcome.raised := rfl

/-- C9 (amended): the two `extractJSON` variants agree except exactly when the
strict parse fails, a bracket substring is found and it also fails to parse;
there `src/index.js` raises while `part_000` returns `null`. -/
theorem c9_decoder_variants_agreement :
    ∀ t : String,
      extractJSONIndexS t = extractJSONPartS t ∨
      (extractJSONIndexS t = JsOutcome.raised ∧
        extractJSONPartS t = JsOutcome.nullv) := by
  intro t
  unfold extractJSONPartS extractJSONIndexS extractJSONPart extractJSONIndex
  cases hp : jsonParse t.data with
  | some v => left; rfl
  | none =>
    cases hb : bracketMatch t.data with
    | none => left; rfl
    | some m =>
      cases hm : jsonParse m with
      | some v => left; simp [hm]
      | none => right; refine ⟨?_, ?_⟩ <;> simp [hm]

/-- C9 counterexample: on `{x}` the two variants produce different outcomes:
`src/index.js` raises, `part_000` returns the absent marker. -/
theorem c9_decoder_variants_counterexample :
    extractJSONIndexS "\x7bx\x7d" = JsOutcome.raised ∧
    extractJSONPartS "\x7bx\x7d" = JsOutcome.nullv := ⟨rfl, rfl⟩

theorem takeWhile_length_le (p : Char → Bool) (l : List Char) :
    (l.takeWhile p).length ≤ l.length := by
  induction l with
  | nil => simp [List.takeWhile]
  | cons a l ih =>
    cases hpa : p a
    · simp [List.takeWhile, hpa]
    · simp only [List.takeWhile, hpa, List.length_cons]
      omega

theorem dropWhile_ne_head (c : Char) :
    ∀ l : List Char, c ∈ l →
      ∃ l2, l.dropWhile (fun d => d ≠ c) = c :: l2 := by
  intro l
  induction l with
  | nil => intro h; simp at h
  | cons a rest ih =>
    intro h
    by_cases hac : a = c
    · subst hac
      exact ⟨rest, by simp [List.dropWhile]⟩
    · have hcr : c ∈ rest := by
        rcases List.mem_cons.mp h with h1 | h1
        · exact absurd h1.symm hac
        · exact h1
      obtain ⟨l2, hl2⟩ := ih hcr
      refine ⟨l2, ?_⟩
      rw [List.dropWhile_cons_of_pos (by simp [Ne, hac]), hl2]

theorem takeToLast_split (c : Char) (l : List Char) (h : c ∈ l) :
    (∃ mid, takeToLast c l = mid ++ [c]) ∧
    (∃ after, l = takeToLast c l ++ after ∧ c ∉ after) := by
  have hrev : c ∈ l.reverse := List.mem_reverse.mpr h
  obtain ⟨l2, hl2⟩ := dropWhile_ne_head c l.reverse hrev
  constructor
  · exact ⟨l2.reverse, by rw [takeToLast, hl2]; simp⟩
  · refine ⟨(l.reverse.takeWhile (fun d => d ≠ c)).reverse, ?_, ?_⟩
    · conv_lhs => rw [← List.reverse_reverse l,
        ← List.takeWhile_append_dropWhile (p := fun d => d ≠ c)
          (l := l.reverse)]
      rw [List.reverse_append, takeToLast]
    · intro hc
      have := List.mem_takeWhile_imp (List.mem_reverse.mp hc)
      simp at this

theorem bmAt_eq_some (l m : List Char) (h : bmAt l = some m) :
    ∃ suf, m ++ suf = l ∧
      ((∃ mid, m = '{' :: (mid ++ ['}']) ∧ '}' ∉ suf) ∨
       (∃ mid, m = '[' :: (mid ++ [']']) ∧ ']' ∉ suf)) := by
  cases l with
  | nil => simp [bmAt] at h
  | cons c0 rest =>
    simp only [bmAt] at h
    by_cases h1 : c0 = '{'
    · subst h1
      simp only [if_true] at h
      by_cases h2 : '}' ∈ rest
      · rw [if_pos h2] at h
        injection h with hm
        obtain ⟨⟨mid, hmid⟩, ⟨after, hsplit, hni⟩⟩ := takeToLast_split '}' rest h2
        refine ⟨after, ?_, Or.inl ⟨mid, ?_, hni⟩⟩
        · rw [← hm]; simp [← hsplit]
        · rw [← hm, hmid]
      · rw [if_neg h2] at h; simp at h
    · rw [if_neg h1] at h
      by_cases h1b : c0 = '['
      · subst h1b
        simp only [if_true] at h
        by_cases h2 : ']' ∈ rest
        · rw [if_pos h2] at h
          injection h with hm
          obtain ⟨⟨mid, hmid⟩, ⟨after, hsplit, hni⟩⟩ := takeToLast_split ']' rest h2
          refine ⟨after, ?_, Or.inr ⟨mid, ?_, hni⟩⟩
          · rw [← hm]; simp [← hsplit]
          · rw [← hm, hmid]
        · rw [if_neg h2] at h; simp at h
      · rw [if_neg h1b] at h; simp at h

theorem bracketMatch_eq_some :
    ∀ (l m : List Char), bracketMatch l = some m →
      ∃ i, bmAt (l.drop i) = some m ∧ ∀ j, j < i → bmAt (l.drop j) = none := by
  intro l
  induction l with
  | nil => intro m h; simp [bracketMatch] at h
  | cons c rest ih =>
    intro m h
    rw [bracketMatch] at h
    cases hb : bmAt (c :: rest) with
    | some m' =>
      rw [hb] at h
      injection h with hm
      exact ⟨0, by rw [List.drop_zero, hb, hm],
        fun j hj => absurd hj (Nat.not_lt_zero j)⟩
    | none =>
      rw [hb] at h
      obtain ⟨i, hbm, hall⟩ := ih m h
      refine ⟨i + 1, by simpa using hbm, ?_⟩
      intro j hj
      cases j with
      | zero => simpa using hb
      | succ j => simpa using hall j (by omega)

theorem bracketMatch_eq_none :
    ∀ l : List Char, bracketMatch l = none →
      ∀ i, bmAt (l.drop i) = none := by
  intro l
  induction l with
  | nil =>
    intro _ i
    cases i <;> simp [bmAt]
  | cons c rest ih =>
    intro h i
    rw [bracketMatch] at h
    cases hb : bmAt (c :: rest) with
    | some m' => rw [hb] at h; simp at h
    | none =>
      rw [hb] at h
      cases i with
      | zero => simpa using hb
      | succ i => simpa using ih h i

/-- C4: the decoder is the two-stage function: a successful strict parse is
returned as-is; otherwise the fallback searches with the leftmost/greedy
regex - the match starts at the first position bearing `{` (or `[`) with a
later closing bracket and runs to the LAST such closing bracket in the text
(no closing bracket of that kind occurs after it), rather than a
balanced-bracket span; prose-wrapped payloads decode to the embedded object. -/
theorem c4_decoder_two_stage :
    (∀ (t : String) (v : Json), jsonParseS t = some v →
      extractJSONIndexS t = JsOutcome.value v ∧
      extractJSONPartS t = JsOutcome.value v) ∧
    (∀ (l m : List Char), bracketMatch l = some m →
      ∃ i suf, l.take i ++ (m ++ suf) = l ∧
        (∀ j, j < i → bmAt (l.drop j) = none) ∧
        bmAt (l.drop i) = some m ∧
        ((∃ mid, m = '{' :: (mid ++ ['}']) ∧ '}' ∉ suf) ∨
         (∃ mid, m = '[' :: (mid ++ [']']) ∧ ']' ∉ suf))) ∧
    (∀ l : List Char, bracketMatch l = none →
      ∀ i, bmAt (l.drop i) = none) ∧
    extractJSONIndexS
        "Here you go:\n\x7b\"score\":7,\"feedback\":\"Good\"\x7d\nHope that helps" =
      JsOutcome.value
        (Json.jobj [("score", Json.jnum "7"), ("feedback", Json.jstr "Good")]) ∧
    extractJSONPartS
        "Here you go:\n\x7b\"score\":7,\"feedback\":\"Good\"\x7d\nHope that helps" =
      JsOutcome.value
        (Json.jobj [("score", Json.jnum "7"), ("feedback", Json.jstr "Good")]) := by
  refine ⟨?_, ?_, bracketMatch_eq_none, rfl, rfl⟩
  · intro t v h
    rw [jsonParseS] at h
    unfold extractJSONIndexS extractJSONIndex extractJSONPartS extractJSONPart
    rw [h]
    exact ⟨rfl, rfl⟩
  · intro l m h
    obtain ⟨i, hbm, hall⟩ := bracketMatch_eq_some l m h
    obtain ⟨suf, hms, hshape⟩ := bmAt_eq_some (l.drop i) m hbm
    exact ⟨i, suf, by rw [hms, List.take_append_drop], hall, hbm, hshape⟩

theorem c4_decoder_two_stage_witness :
    (extractJSONIndexS "7" = JsOutcome.value (Json.jnum "7") ∧
      extractJSONPartS "7" = JsOutcome.value (Json.jnum "7")) ∧
    (∃ i suf, "a\x7bb\x7dc".data.take i ++ ("\x7bb\x7d".data ++ suf) =
        "a\x7bb\x7dc".data ∧
      (∀ j, j < i → bmAt ("a\x7bb\x7dc".data.drop j) = none) ∧
      bmAt ("a\x7bb\x7dc".data.drop i) = some "\x7bb\x7d".data ∧
      ((∃ mid, "\x7bb\x7d".data = '{' :: (mid ++ ['}']) ∧ '}' ∉ suf) ∨
       (∃ mid, "\x7bb\x7d".data = '[' :: (mid ++ [']']) ∧ ']' ∉ suf))) :=
  ⟨c4_decoder_two_stage.1 "7" (Json.jnum "7") (by rfl),
   c4_decoder_two_stage.2.1 "a\x7bb\x7dc".data "\x7bb\x7d".data (by rfl)⟩

/-- C5 (amended): `extractName` splits the text into non-empty trimmed lines,
examines at most the first 6 in order, and returns the first line that does
not case-insensitively contain `resume`, contains at least one ASCII letter,
and splits into 4 or fewer pieces when split at every SINGLE SPACE character
(consecutive spaces yield empty pieces that are counted; tabs and other
whitespace do not separate) - `s.split(" ")`, not whitespace-run
tokenisation; if no line qualifies it returns the absent marker (it is a
total function - it never raises). -/
theorem c5_extractName_behavior :
    (∀ t : List Char, extractName t = ((linesOf t).take 6).find? nameOk) ∧
    extractNameS "Jane Doe\nResume\njane.doe@example.com" = some "Jane Doe" ∧
    extractNameS
        "Curriculum Vitae for a Senior Principal Staff Software Engineer\nJohn Smith" =
      some "John Smith" :=
  ⟨fun t => nameLoop_eq_find 6 (linesOf t), rfl, rfl⟩

/-- C5 counterexample: the one-line text `a  b  c` (double spaces) has 3
whitespace-separated tokens, an ASCII letter and no `resume`, so the claim
says it is returned as the name; but `s.split(" ")` yields 5 pieces (empties
included), so the code rejects the line and returns the absent marker. -/
theorem c5_extractName_counterexample :
    extractNameS "a  b  c" = none ∧
    (specWsTokens "a  b  c".data).length = 3 ∧
    hasResumeCI "a  b  c".data = false ∧
    "a  b  c".data.any isAsciiLetterChar = true ∧
    (splitOnSpace "a  b  c".data).length = 5 :=
  ⟨rfl, rfl, rfl, rfl, rfl⟩


theorem take_takeWhile_length (p : Char → Bool) (l : List Char) :
    l.take ((l.takeWhile p).length) = l.takeWhile p := by
  nth_rewrite 2 [← List.takeWhile_append_dropWhile (p := p) (l := l)]
  exact List.take_left _ _

theorem domSplitFrom_eq_some (tld : Char → Bool) (dom : List Char) :
    ∀ (k e tl : Nat), domSplitFrom tld dom k = some (e, tl) →
      1 ≤ e ∧ dom.get? e = some '.' ∧
      tl = ((dom.drop (e + 1)).takeWhile tld).length ∧ 2 ≤ tl := by
  intro k
  induction k with
  | zero => intro e tl h; simp [domSplitFrom] at h
  | succ k ih =>
    intro e tl h
    rw [domSplitFrom] at h
    split at h
    · rename_i hcond
      injection h with h1
      injection h1 with he htl
      simp only [Bool.and_eq_true, decide_eq_true_eq] at hcond
      subst he
      subst htl
      exact ⟨Nat.succ_le_succ (Nat.zero_le k), hcond.1, rfl, hcond.2⟩
    · exact ih e tl h

theorem matchEmailAt_shape (l : List Char) (n : Nat)
    (h : matchEmailAtWith isLowerAZ l = some n) :
    ∃ a b c, l.take n = a ++ '@' :: (b ++ '.' :: c) ∧ a ≠ [] ∧
      (∀ x ∈ a, isLocalChar x = true) ∧ b ≠ [] ∧
      (∀ x ∈ b, isDomainChar x = true) ∧ 2 ≤ c.length ∧
      (∀ x ∈ c, isLowerAZ x = true) := by
  unfold matchEmailAtWith at h
  cases hd : l.dropWhile isLocalChar with
  | nil => rw [hd] at h; simp at h
  | cons c0 r2 =>
    rw [hd] at h
    dsimp only at h
    by_cases hc0 : c0 = '@'
    · subst hc0
      rw [if_pos rfl] at h
      by_cases hloc : (l.takeWhile isLocalChar).isEmpty
      · rw [if_pos hloc] at h; simp at h
      · rw [if_neg hloc] at h
        cases hds : domSplitFrom isLowerAZ (r2.takeWhile isDomainChar)
            ((r2.takeWhile isDomainChar).length - 1) with
        | none => rw [hds] at h; simp at h
        | some p =>
          obtain ⟨e, tl⟩ := p
          rw [hds] at h
          dsimp only at h
          injection h with hn
          obtain ⟨he1, hdot, htl, htl2⟩ :=
            domSplitFrom_eq_some isLowerAZ (r2.takeWhile isDomainChar) _ e tl hds
          set loc := l.takeWhile isLocalChar with hloceq
          set dom := r2.takeWhile isDomainChar with hdomeq
          have hel : e < dom.length := (List.get?_eq_some.mp hdot).1
          have htlle : tl ≤ dom.length - (e + 1) := by
            rw [htl]
            calc ((dom.drop (e + 1)).takeWhile isLowerAZ).length
                ≤ (dom.drop (e + 1)).length :=
                  takeWhile_length_le isLowerAZ (dom.drop (e + 1))
              _ = dom.length - (e + 1) := List.length_drop (e + 1) dom
          have hdot' : dom[e]? = some '.' := by
            rw [← List.get?_eq_getElem?]
            exact hdot
          have hsplit : l = loc ++ ('@' :: r2) := by
            conv_lhs =>
              rw [← List.takeWhile_append_dropWhile (p := isLocalChar) (l := l)]
            rw [hd]
          have hr2 : r2 = dom ++ r2.dropWhile isDomainChar := by
            conv_lhs =>
              rw [← List.takeWhile_append_dropWhile (p := isDomainChar) (l := r2)]
          have hc_eq : (dom.drop (e + 1)).take tl =
              (dom.drop (e + 1)).takeWhile isLowerAZ := by
            rw [htl]
            exact take_takeWhile_length _ _
          have hdom_take : dom.take (e + 1 + tl) =
              dom.take e ++ '.' :: (dom.drop (e + 1)).takeWhile isLowerAZ := by
            rw [List.take_add, List.take_succ, hdot', hc_eq]
            simp
          have hr2_take : r2.take (e + 1 + tl) = dom.take (e + 1 + tl) := by
            conv_lhs => rw [hr2]
            rw [List.take_append_eq_append_take,
              show e + 1 + tl - dom.length = 0 by omega,
              List.take_zero, List.append_nil]
          have hl_take : l.take n = loc ++ '@' :: r2.take (e + 1 + tl) := by
            conv_lhs => rw [hsplit]
            rw [List.take_append_eq_append_take,
              List.take_of_length_le (l := loc) (by omega),
              show n - loc.length = (e + 1 + tl) + 1 by omega,
              List.take_succ_cons]
          refine ⟨loc, dom.take e, (dom.drop (e + 1)).takeWhile isLowerAZ,
            ?_, ?_, ?_, ?_, ?_, ?_, ?_⟩
          · rw [hl_take, hr2_take, hdom_take]
          · intro hfalse
            rw [hfalse] at hloc
            simp at hloc
          · intro x hx
            exact List.mem_takeWhile_imp hx
          · have : (dom.take e).length = e := by
              rw [List.length_take]
              omega
            intro hfalse
            rw [hfalse] at this
            simp at this
            omega
          · intro x hx
            exact List.mem_takeWhile_imp (List.take_subset e dom hx)
          · rw [← htl]
            exact htl2
          · intro x hx
            exact List.mem_takeWhile_imp hx
    · rw [if_neg hc0] at h; simp at h

/-- C6 (amended): `extractEmail` returns the leftmost substring matching the
local-part `@` domain-with-dot pattern in which the top-level-domain letters
are LOWERCASE ONLY (the regex `[a-z]{2,}` carries no `i` flag, so uppercase
TLD letters never match); if no such substring exists it returns the absent
marker. -/
theorem c6_extractEmail_behavior :
    (∀ (t s : List Char), extractEmail t = some s →
      (∃ i n, (∀ j, j < i → matchEmailAt (t.drop j) = none) ∧
        matchEmailAt (t.drop i) = some n ∧ s = (t.drop i).take n) ∧
      (∃ a b c, s = a ++ '@' :: (b ++ '.' :: c) ∧ a ≠ [] ∧
        (∀ x ∈ a, isLocalChar x = true) ∧ b ≠ [] ∧
        (∀ x ∈ b, isDomainChar x = true) ∧ 2 ≤ c.length ∧
        (∀ x ∈ c, isLowerAZ x = true))) ∧
    (∀ t : List Char, extractEmail t = none →
      ∀ i, matchEmailAt (t.drop i) = none) ∧
    extractEmailS "Contact: Jane Doe jane.doe@example.com, phone 9876543210" =
      some "jane.doe@example.com" := by
  refine ⟨?_, ?_, rfl⟩
  · intro t s h
    obtain ⟨i, n, hall, hmi, hs⟩ := scanMatch_eq_some matchEmailAt t s h
    refine ⟨⟨i, n, hall, hmi, hs⟩, ?_⟩
    rw [hs]
    exact matchEmailAt_shape (t.drop i) n hmi
  · intro t h
    exact scanMatch_eq_none matchEmailAt t h

theorem c6_extractEmail_behavior_witness :
    (∃ a b c, "a@b.cd".data = a ++ '@' :: (b ++ '.' :: c) ∧ a ≠ [] ∧
      (∀ x ∈ a, isLocalChar x = true) ∧ b ≠ [] ∧
      (∀ x ∈ b, isDomainChar x = true) ∧ 2 ≤ c.length ∧
      (∀ x ∈ c, isLowerAZ x = true)) ∧
    matchEmailAt ("no at sign".data.drop 3) = none :=
  ⟨((c6_extractEmail_behavior.1 "x a@b.cd y".data "a@b.cd".data (by rfl)).2),
   (c6_extractEmail_behavior.2.1 "no at sign".data (by rfl)) 3⟩

/-- C6 counterexample: in `a@b.COM` the only candidate TLD is uppercase; the
source pattern (no `i` flag, TLD class `[a-z]{2,}`) finds nothing, while the
claim's case-insensitive reading matches the whole string. -/
theorem c6_extractEmail_counterexample :
    extractEmailS "a@b.COM" = none ∧
    extractEmailSpecCI "a@b.COM".data = some "a@b.COM".data := ⟨rfl, rfl⟩

/-- C7 (amended): `part_000` responds 400 `Missing candidate data` without
calling the LLM when the candidate is absent or its `answers` field is
absent/falsy; `src/index.js` checks only that `candidate` itself is present,
and for a candidate lacking `answers` it still makes the LLM call. -/
theorem c7_final_summary_validation :
    ∀ (c : CandidateObj) (r : Option String),
      finalSummaryPart none r = ⟨400, errBody "Missing candidate data", false⟩ ∧
      finalSummaryIndex none r = ⟨400, errBody "Missing candidate data", false⟩ ∧
      (truthyOpt c.answers = false →
        finalSummaryPart (some c) r =
          ⟨400, errBody "Missing candidate data", false⟩) ∧
      (finalSummaryIndex (some c) r).llmCalled = true := by
  intro c r
  refine ⟨rfl, rfl, ?_, ?_⟩
  · intro h
    simp [finalSummaryPart, h]
  · cases r with
    | none => rfl
    | some rr =>
      unfold finalSummaryIndex
      dsimp only
      cases extractJSONIndexS rr <;> rfl

theorem c7_final_summary_validation_witness :
    finalSummaryPart (some ⟨some (Json.jstr "x"), none⟩) (some "\x7b\x7d") =
      ⟨400, errBody "Missing candidate data", false⟩ :=
  (c7_final_summary_validation ⟨some (Json.jstr "x"), none⟩
    (some "\x7b\x7d")).2.2.1 (by rfl)

/-- C7 counterexample: `src/index.js` with a candidate present but lacking
`answers` proceeds to the LLM call and answers 200, not 400. -/
theorem c7_final_summary_counterexample :
    (finalSummaryIndex (some ⟨some (Json.jstr "x"), none⟩)
        (some "\x7b\x7d")).llmCalled = true ∧
    (finalSummaryIndex (some ⟨some (Json.jstr "x"), none⟩)
        (some "\x7b\x7d")).status = 200 := ⟨rfl, rfl⟩

/-- C3 (amended): when the decoder returns the absent marker for the LLM
reply, the `part_000` endpoints respond 500 with their fixed messages, but
the `src/index.js` endpoints respond 200: `{questions: null}` for
generate-questions and a bare `null` body for grade-answer and
final-summary. -/
theorem c3_ai_endpoints_decode_absent :
    ∀ (r : String) (q a : Option Json) (cand : CandidateObj),
      extractJSONPartS r = JsOutcome.nullv →
      truthyOpt q = true → truthyOpt a = true →
      truthyOpt cand.answers = true →
      genQuestionsPart (some r) =
        ⟨500, errBody "Gemini question generation failed", true⟩ ∧
      gradeAnswerPart q a (some r) =
        ⟨500, errBody "Gemini grading failed", true⟩ ∧
      finalSummaryPart (some cand) (some r) =
        ⟨500, errBody "Gemini summary failed", true⟩ ∧
      (extractJSONIndexS r = JsOutcome.nullv →
        genQuestionsIndex (some r) =
          ⟨200, Json.jobj [("questions", Json.jnull)], true⟩ ∧
        gradeAnswerIndex q a (some r) = ⟨200, Json.jnull, true⟩ ∧
        finalSummaryIndex (some cand) (some r) = ⟨200, Json.jnull, true⟩) := by
  intro r q a cand hP hq ha hans
  refine ⟨?_, ?_, ?_, ?_⟩
  · simp [genQuestionsPart, hP]
  · simp [gradeAnswerPart, hq, ha, hP]
  · simp [finalSummaryPart, hans, hP]
  · intro hI
    exact ⟨by simp [genQuestionsIndex, hI],
      by simp [gradeAnswerIndex, hq, ha, hI],
      by simp [finalSummaryIndex, hI]⟩

theorem c3_ai_endpoints_decode_absent_witness :
    genQuestionsPart (some "nope") =
      ⟨500, errBody "Gemini question generation failed", true⟩ ∧
    genQuestionsIndex (some "nope") =
      ⟨200, Json.jobj [("questions", Json.jnull)], true⟩ :=
  ⟨(c3_ai_endpoints_decode_absent "nope" (some (Json.jstr "Q"))
      (some (Json.jstr "A")) ⟨some (Json.jstr "N"), some (Json.jarr [])⟩
      (by rfl) (by rfl) (by rfl) (by rfl)).1,
   ((c3_ai_endpoints_decode_absent "nope" (some (Json.jstr "Q"))
      (some (Json.jstr "A")) ⟨some (Json.jstr "N"), some (Json.jarr [])⟩
      (by rfl) (by rfl) (by rfl) (by rfl)).2.2.2 (by rfl)).1⟩

/-- C3 counterexample: on a reply with no bracket substring the decoder
returns the absent marker, yet every `src/index.js` AI endpoint responds 200,
not 500. -/
theorem c3_ai_endpoints_counterexample :
    extractJSONIndexS "no brackets here" = JsOutcome.nullv ∧
    (genQuestionsIndex (some "no brackets here")).status = 200 ∧
    (gradeAnswerIndex (some (Json.jstr "Q")) (some (Json.jstr "A"))
        (some "no brackets here")).status = 200 ∧
    (finalSummaryIndex (some ⟨some (Json.jstr "N"), some (Json.jarr [])⟩)
        (some "no brackets here")).status = 200 :=
  ⟨rfl, rfl, rfl, rfl⟩

/-- C8: `parse-resume` accepts exactly the `.pdf` and `.docx` extensions of
the uploaded filename, lowercased before comparison; a request with no file
gets 400 `No file uploaded`, and any other extension gets 400
`Only PDF or DOCX allowed` with no decoder invoked. -/
theorem c8_parse_resume_validation :
    ∀ (fname : String) (r : ExtractRes),
      parseResumeIndex none r = ⟨400, errBody "No file uploaded", 0, none⟩ ∧
      parseResumePart none r = ⟨400, errBody "No file uploaded", 0, none⟩ ∧
      ((parseResumeIndex (some fname) r).decoder = some DecKind.pdf ↔
        lowerS (extnameS fname) = ".pdf") ∧
      ((parseResumeIndex (some fname) r).decoder = some DecKind.docx ↔
        lowerS (extnameS fname) = ".docx") ∧
      ((parseResumePart (some fname) r).decoder = some DecKind.pdf ↔
        lowerS (extnameS fname) = ".pdf") ∧
      ((parseResumePart (some fname) r).decoder = some DecKind.docx ↔
        lowerS (extnameS fname) = ".docx") ∧
      (lowerS (extnameS fname) ≠ ".pdf" → lowerS (extnameS fname) ≠ ".docx" →
        parseResumeIndex (some fname) r =
          ⟨400, errBody "Only PDF or DOCX allowed", 0, none⟩ ∧
        parseResumePart (some fname) r =
          ⟨400, errBody "Only PDF or DOCX allowed", 1, none⟩) := by
  intro fname r
  by_cases h1 : lowerS (extnameS fname) = ".pdf"
  · refine ⟨rfl, rfl, ?_, ?_, ?_, ?_, ?_⟩
    · cases r <;> simp [parseResumeIndex, h1]
    · cases r <;> simp [parseResumeIndex, h1]
    · cases r <;> simp [parseResumePart, h1]
    · cases r <;> simp [parseResumePart, h1]
    · intro hc
      exact absurd h1 hc
  · by_cases h2 : lowerS (extnameS fname) = ".docx"
    · refine ⟨rfl, rfl, ?_, ?_, ?_, ?_, ?_⟩
      · cases r <;> simp [parseResumeIndex, h1, h2]
      · cases r <;> simp [parseResumeIndex, h1, h2]
      · cases r <;> simp [parseResumePart, h1, h2]
      · cases r <;> simp [parseResumePart, h1, h2]
      · intro _ hc
        exact absurd h2 hc
    · refine ⟨rfl, rfl, ?_, ?_, ?_, ?_, ?_⟩
      · simp [parseResumeIndex, h1, h2]
      · simp [parseResumeIndex, h1, h2]
      · simp [parseResumePart, h1, h2]
      · simp [parseResumePart, h1, h2]
      · intro _ _
        exact ⟨by simp [parseResumeIndex, h1, h2],
          by simp [parseResumePart, h1, h2]⟩

theorem c8_parse_resume_validation_witness :
    parseResumeIndex (some "notes.txt") (ExtractRes.ok (some "t")) =
      ⟨400, errBody "Only PDF or DOCX allowed", 0, none⟩ ∧
    parseResumePart (some "notes.txt") (ExtractRes.ok (some "t")) =
      ⟨400, errBody "Only PDF or DOCX allowed", 1, none⟩ ∧
    (parseResumeIndex (some "CV.PdF") (ExtractRes.ok (some "t"))).decoder =
      some DecKind.pdf ∧
    (parseResumePart (some "My Resume.DOCX") ExtractRes.threw).decoder =
      some DecKind.docx :=
  ⟨((c8_parse_resume_validation "notes.txt" (ExtractRes.ok (some "t"))).2.2.2.2.2.2
      (by decide) (by decide)).1,
   ((c8_parse_resume_validation "notes.txt" (ExtractRes.ok (some "t"))).2.2.2.2.2.2
      (by decide) (by decide)).2,
   ((c8_parse_resume_validation "CV.PdF" (ExtractRes.ok (some "t"))).2.2.1).mpr
      (by decide),
   ((c8_parse_resume_validation "My Resume.DOCX" ExtractRes.threw).2.2.2.2.2.1).mpr
      (by decide)⟩

/-- C2 (amended): the `src/index.js` variant never removes the staged
temporary file on any path; the `part_000` variant removes it exactly once on
the successful-extraction and unsupported-extension paths, but zero times
when the extraction (or the file read) throws. -/
theorem c2_temp_file_cleanup :
    ∀ (f : Option String) (fname : String) (t : Option String) (r : ExtractRes),
      (parseResumeIndex f r).unlinks = 0 ∧
      ((lowerS (extnameS fname) = ".pdf" ∨ lowerS (extnameS fname) = ".docx") →
        (parseResumePart (some fname) (ExtractRes.ok t)).unlinks = 1 ∧
        (parseResumePart (some fname) ExtractRes.threw).unlinks = 0) ∧
      (lowerS (extnameS fname) ≠ ".pdf" → lowerS (extnameS fname) ≠ ".docx" →
        (parseResumePart (some fname) r).unlinks = 1) ∧
      (parseResumePart none r).unlinks = 0 := by
  intro f fname t r
  refine ⟨?_, ?_, ?_, rfl⟩
  · cases f with
    | none => rfl
    | some fn =>
      by_cases h1 : lowerS (extnameS fn) = ".pdf"
      · cases r <;> simp [parseResumeIndex, h1]
      · by_cases h2 : lowerS (extnameS fn) = ".docx"
        · cases r <;> simp [parseResumeIndex, h1, h2]
        · simp [parseResumeIndex, h1, h2]
  · rintro (h1 | h1)
    · exact ⟨by simp [parseResumePart, h1], by simp [parseResumePart, h1]⟩
    · have hp : lowerS (extnameS fname) ≠ ".pdf" := by
        rw [h1]; decide
      exact ⟨by simp [parseResumePart, h1, hp],
        by simp [parseResumePart, h1, hp]⟩
  · intro h1 h2
    simp [parseResumePart, h1, h2]

theorem c2_temp_file_cleanup_witness :
    (parseResumePart (some "cv.docx") (ExtractRes.ok (some "x"))).unlinks = 1 ∧
    (parseResumePart (some "cv.pdf") ExtractRes.threw).unlinks = 0 ∧
    (parseResumePart (some "notes.md") (ExtractRes.ok none)).unlinks = 1 :=
  ⟨((c2_temp_file_cleanup none "cv.docx" (some "x")
      (ExtractRes.ok (some "x"))).2.1 (Or.inr (by decide))).1,
   ((c2_temp_file_cleanup none "cv.pdf" none ExtractRes.threw).2.1
      (Or.inl (by decide))).2,
   (c2_temp_file_cleanup none "notes.md" none
      (ExtractRes.ok none)).2.2.1 (by decide) (by decide)⟩

/-- C2 counterexample: a successful `.pdf` upload through `src/index.js`
removes the temp file zero times, not exactly once; and an extraction failure
in `part_000` also skips the removal. -/
theorem c2_temp_file_counterexample :
    (parseResumeIndex (some "cv.pdf")
        (ExtractRes.ok (some "hello world"))).unlinks ≠ 1 ∧
    (parseResumePart (some "cv.pdf") ExtractRes.threw).unlinks ≠ 1 := by
  exact ⟨by decide, by decide⟩
